import Mathlib

/-!
Verification development for the soborlo GitHub–Notion synchronisation engine.

The TypeScript source is shallowly embedded: each relevant function is
translated into an executable Lean definition, network effects are made
explicit (queries become list filters over a modelled database, writes become
traces of write records), and JavaScript runtime semantics that matter
(object property lookup through the prototype chain, truthiness, strict
inequality against undefined) are modelled explicitly.
-/

namespace Soborlo

/-! ### JavaScript value model

A tiny model of the JavaScript values that can flow out of an object-literal
property access: strings, inherited methods (functions), objects, and
undefined.  Property access on an object literal consults the object's own
properties first and then Object.prototype.
-/

inductive JsVal where
  | str (s : String)
  | fn (name : String)
  | obj
  | jsUndefined
  deriving DecidableEq, Repr

def jsTruthy : JsVal → Bool
  | .str s => !(s == "")
  | .fn _ => true
  | .obj => true
  | .jsUndefined => false

/-- JavaScript logical-or on values: the left operand if truthy, else the
right operand. -/
def jsOr (a b : JsVal) : JsVal :=
  if jsTruthy a then a else b

/-- Property names inherited from Object.prototype by every object literal
(those whose values are functions). -/
def objectProtoMethods : List String :=
  ["constructor", "hasOwnProperty", "isPrototypeOf", "propertyIsEnumerable",
   "toLocaleString", "toString", "valueOf",
   "__defineGetter__", "__defineSetter__", "__lookupGetter__", "__lookupSetter__"]

/-- JavaScript property read on an object literal whose own properties form a
string-to-string record: own property first, then the prototype chain, else
undefined. -/
def jsGet (own : List (String × String)) (k : String) : JsVal :=
  match own.find? (fun p => p.1 == k) with
  | some p => .str p.2
  | none =>
    if k == "__proto__" then .obj
    else if objectProtoMethods.contains k then .fn k
    else .jsUndefined

/-! ### Status translator — services/notion.ts, mapGitHubStatusToNotion -/

/-- The own entries of the statusMap object literal in
mapGitHubStatusToNotion (services/notion.ts lines 359-366). -/
def statusMapPairs : List (String × String) :=
  [("お手すきに", "お手すきに"),
   ("Backlog", "Backlog"),
   ("今週やる", "今週やる"),
   ("着手中", "着手中"),
   ("相談中", "相談中"),
   ("完了", "完了")]

/-- services/notion.ts lines 358-378: statusMap[githubStatus] || the default
label.  The index access goes through the JS property-lookup model because a
plain object literal inherits from Object.prototype. -/
def mapGitHubStatusToNotion (githubStatus : String) : JsVal :=
  jsOr (jsGet statusMapPairs githubStatus) (.str "Not started")

/-- Is a JavaScript value a string? -/
def isStringValue : JsVal → Bool
  | .str _ => true
  | _ => false

/-! ### Resilience wrapper — utils/retry.ts, retryWithBackoff -/

/-- A JavaScript error as seen by the retry wrapper: it may or may not carry
an HTTP response status. -/
structure JsError where
  status : Option Nat
  deriving DecidableEq, Repr

def retryableStatuses : List Nat := [409, 429, 500, 502, 503, 504]

/-- utils/retry.ts line 42: an error is retryable when it carries a truthy
response status contained in the retryable list.  (A missing status, or
status 0, is falsy; 0 is not in the list either.) -/
def isRetryableError (e : JsError) : Bool :=
  match e.status with
  | some s => retryableStatuses.contains s
  | none => false

/-- The retry loop of utils/retry.ts lines 31-54, with the attempted
operation modelled as a function from the attempt index to an outcome.
Returns (the list of delays slept before each retry, the number of attempts
made, the final outcome).  The second index is the remaining retry budget
(maxRetries minus the current attempt index). -/
def retryAux (op : Nat → Except JsError Nat) (baseDelay maxDelay attempt : Nat) :
    Nat → List Nat × Nat × Except JsError Nat
  | 0 =>
    match op attempt with
    | .ok v => ([], 1, .ok v)
    | .error e => ([], 1, .error e)
  | remaining + 1 =>
    match op attempt with
    | .ok v => ([], 1, .ok v)
    | .error e =>
      if isRetryableError e then
        let delay := min (baseDelay * 2 ^ attempt) maxDelay
        let rest := retryAux op baseDelay maxDelay (attempt + 1) remaining
        (delay :: rest.1, rest.2.1 + 1, rest.2.2)
      else ([], 1, .error e)

/-- retryWithBackoff at its default options (utils/retry.ts lines 17-22):
maxRetries 2, baseDelay 500, maxDelay 2000. -/
def retryWithBackoff (op : Nat → Except JsError Nat) : List Nat × Nat × Except JsError Nat :=
  retryAux op 500 2000 0 2

/-- An operation that fails with HTTP 500 on its first two attempts and
succeeds on the third. -/
def flaky500 : Nat → Except JsError Nat :=
  fun n => if n < 2 then .error ⟨some 500⟩ else .ok 7

/-! ### Reverse-direction matcher — reverse-sync.ts

Strings are modelled as sequences of Unicode code points (Lean Char).  The
JavaScript regex character class backslash-s is modelled by isJsSpace below;
Unicode case folding is modelled on the ASCII range, which is the range the
normalizer can produce for cased letters (full-width letters are folded to
ASCII before lower-casing).
-/

/-- The character set matched by the JavaScript regex class backslash-s
(WhiteSpace plus LineTerminator). -/
def isJsSpace (c : Char) : Bool :=
  let n := c.toNat
  n == 0x09 || n == 0x0A || n == 0x0B || n == 0x0C || n == 0x0D ||
  n == 0x20 || n == 0xA0 || n == 0x1680 ||
  (0x2000 ≤ n && n ≤ 0x200A) ||
  n == 0x2028 || n == 0x2029 || n == 0x202F || n == 0x205F ||
  n == 0x3000 || n == 0xFEFF

/-- JavaScript String.prototype.trim. -/
def trimJs (cs : List Char) : List Char :=
  ((cs.dropWhile isJsSpace).reverse.dropWhile isJsSpace).reverse

/-- The full-width-to-half-width punctuation replacements of
reverse-sync.ts lines 99-129, as (source, image) pairs in source order.
Brace-like and backtick characters are written with Char.ofNat. -/
def symbolPairs : List (Char × Char) :=
  [('：', ':'), ('（', '('), ('）', ')'), ('！', '!'), ('？', '?'),
   ('．', '.'), ('，', ','), ('；', ';'), ('「', '"'), ('」', '"'),
   ('【', '['), ('】', ']'),
   (Char.ofNat 0xFF5B, Char.ofNat 0x7B), (Char.ofNat 0xFF5D, Char.ofNat 0x7D),
   ('～', '~'), ('－', '-'), ('＿', '_'), ('＋', '+'), ('＝', '='),
   ('＆', '&'), ('％', '%'), ('＃', '#'), ('＠', '@'), ('＄', '$'),
   ('／', '/'), ('＼', '\\'), ('｜', '|'), ('＾', '^'),
   (Char.ofNat 0xFF40, Char.ofNat 0x60), ('＊', '*')]

/-- Apply the punctuation replacement table to one character. -/
def symbolMap (c : Char) : Char :=
  match symbolPairs.find? (fun p => p.1 == c) with
  | some p => p.2
  | none => c

/-- Full-width ASCII letters and digits (the regex class of
reverse-sync.ts line 132). -/
def isFullWidthAlnum (c : Char) : Bool :=
  let n := c.toNat
  (0xFF21 ≤ n && n ≤ 0xFF3A) || (0xFF41 ≤ n && n ≤ 0xFF5A) ||
  (0xFF10 ≤ n && n ≤ 0xFF19)

/-- reverse-sync.ts lines 132-134: shift a full-width alphanumeric character
down by 0xFEE0 into the ASCII range. -/
def shiftFullWidth (c : Char) : Char :=
  if isFullWidthAlnum c then Char.ofNat (c.toNat - 0xFEE0) else c

/-- ASCII lower-casing, the case-fold the normalizer's inputs reach after
full-width folding. -/
def jsToLower (c : Char) : Char :=
  if 65 ≤ c.toNat && c.toNat ≤ 90 then Char.ofNat (c.toNat + 32) else c

/-- The anchored regex of reverse-sync.ts lines 87 and 93: an ASCII
PBI-<digits>: header, case-insensitive in the letters.  Returns the digit
run and the text after the colon when the title starts with such a header. -/
def pbiSplit (cs : List Char) : Option (List Char × List Char) :=
  match cs with
  | c1 :: c2 :: c3 :: c4 :: rest =>
    if (c1 == 'P' || c1 == 'p') && (c2 == 'B' || c2 == 'b') &&
       (c3 == 'I' || c3 == 'i') && c4 == '-' then
      match rest.dropWhile Char.isDigit with
      | t1 :: afterColon =>
        if t1 == ':' && !(rest.takeWhile Char.isDigit).isEmpty then
          some (rest.takeWhile Char.isDigit, afterColon)
        else none
      | [] => none
    else none
  | _ => none

/-- reverse-sync.ts lines 86-89, extractPbiId: the digit run of a leading
PBI-<digits>: header, or null. -/
def extractPbiId (title : String) : Option String :=
  (pbiSplit title.data).map (fun p => String.mk p.1)

/-- reverse-sync.ts line 93: strip a leading PBI-<digits>: header together
with the whitespace that follows it. -/
def stripPbiHeader (cs : List Char) : List Char :=
  match pbiSplit cs with
  | some p => p.2.dropWhile isJsSpace
  | none => cs

/-- reverse-sync.ts line 140: collapse every maximal run of whitespace into
a single half-width space. -/
def collapseSpacesJs : List Char → List Char
  | [] => []
  | [c] => [if isJsSpace c then ' ' else c]
  | c1 :: c2 :: rest =>
    if isJsSpace c1 && isJsSpace c2 then collapseSpacesJs (c2 :: rest)
    else (if isJsSpace c1 then ' ' else c1) :: collapseSpacesJs (c2 :: rest)

/-- reverse-sync.ts lines 91-152, normalizeTitle, step by step in source
order: strip the PBI header, trim, fold punctuation, fold full-width
alphanumerics, fold the ideographic space, collapse whitespace runs, trim
again, lower-case, and finally delete all remaining whitespace. -/
def normalizeCore (cs : List Char) : List Char :=
  let n1 := stripPbiHeader cs
  let n2 := trimJs n1
  let n3 := n2.map symbolMap
  let n4 := n3.map shiftFullWidth
  let n5 := n4.map (fun c => if c == Char.ofNat 0x3000 then ' ' else c)
  let n6 := collapseSpacesJs n5
  let n7 := trimJs n6
  let n8 := n7.map jsToLower
  n8.filter (fun c => !(isJsSpace c))

def normalizeTitle (s : String) : String :=
  String.mk (normalizeCore s.data)

structure GitHubIssue where
  number : Nat
  title : String
  deriving DecidableEq, Repr

/-- Does the list start with the given pattern? -/
def startsWithChars : List Char → List Char → Bool
  | _, [] => true
  | [], _ :: _ => false
  | a :: as, b :: bs => a == b && startsWithChars as bs

/-- Does the haystack contain the needle as a contiguous run? -/
def containsChars : List Char → List Char → Bool
  | [], needle => needle.isEmpty
  | h :: hs, needle => startsWithChars (h :: hs) needle || containsChars hs needle

/-- JavaScript String.prototype.includes: contiguous-substring containment. -/
def jsIncludes (haystack needle : String) : Bool :=
  containsChars haystack.data needle.data

/-- The exact-match predicate of reverse-sync.ts lines 158-161: the
candidate's normalized title equals the normalized Notion title. -/
def titleExactPred (nt : String) (issue : GitHubIssue) : Bool :=
  normalizeTitle issue.title == nt

/-- The looser predicate of reverse-sync.ts lines 168-179: the strictly
shorter of the two normalized titles is contained in the longer one. -/
def titleLoosePred (nt : String) (issue : GitHubIssue) : Bool :=
  let gt := normalizeTitle issue.title
  if nt.length < gt.length then jsIncludes gt nt
  else if gt.length < nt.length then jsIncludes nt gt
  else false

/-- reverse-sync.ts lines 154-182, matchByTitle: first candidate with an
exactly equal normalized title; failing that, first candidate where the
strictly shorter normalized title is contained in the longer one. -/
def matchByTitle (notionTitle : String) (githubIssues : List GitHubIssue) :
    Option GitHubIssue :=
  let nt := normalizeTitle notionTitle
  match githubIssues.find? (titleExactPred nt) with
  | some exact => some exact
  | none => githubIssues.find? (titleLoosePred nt)

inductive MatchKind where
  | pbiId
  | title
  | noMatch
  deriving DecidableEq, Repr

/-- The per-page matching step of matchNotionWithGitHub
(reverse-sync.ts lines 190-252): PBI-key equality first, title matching only
when the key rule produced no issue. -/
def matchOnePage (notionTitle : String) (githubIssues : List GitHubIssue) :
    MatchKind × Option GitHubIssue :=
  let byPbi :=
    match extractPbiId notionTitle with
    | some key => githubIssues.find? (fun issue => extractPbiId issue.title == some key)
    | none => none
  match byPbi with
  | some issue => (.pbiId, some issue)
  | none =>
    match matchByTitle notionTitle githubIssues with
    | some issue => (.title, some issue)
    | none => (.noMatch, none)

/-! ### Forward identity resolver — services/notion.ts

The Notion database is modelled as a list of pages; a query by field is the
filter the Notion API evaluates, and its first result is the head of that
filter.  Write effects are modelled as traces: attemptedWrites is what the
code tries to patch, appliedWrites is what actually lands (empty when the
patch call fails; the failure is swallowed by verifyAndFixNotionId's catch).
-/

structure NotionPage where
  pageId : String
  idProp : Option String
  numberProp : Option Int
  urlProp : Option String
  deriving DecidableEq, Repr

structure GitHubItem where
  id : String
  number : Int
  htmlUrl : String
  deriving DecidableEq, Repr

/-- searchNotionByField with the ID property (rich_text equals filter). -/
def searchById (db : List NotionPage) (v : String) : List NotionPage :=
  db.filter (fun p => p.idProp == some v)

/-- searchNotionByField with the Number property (number equals filter). -/
def searchByNumber (db : List NotionPage) (n : Int) : List NotionPage :=
  db.filter (fun p => p.numberProp == some n)

/-- searchNotionByField with the URL property. -/
def searchByUrl (db : List NotionPage) (u : String) : List NotionPage :=
  db.filter (fun p => p.urlProp == some u)

/-- services/notion.ts lines 52-93, verifyAndFixNotionId: the correction
write it attempts — one patch when the stored ID differs from the expected
one, none otherwise. -/
def verifyAndFixWrites (page : NotionPage) (expectedId : String) :
    List (String × String) :=
  if page.idProp == some expectedId then [] else [(page.pageId, expectedId)]

structure ResolveOutcome where
  page : Option NotionPage
  strategiesTried : List Nat
  attemptedWrites : List (String × String)
  appliedWrites : List (String × String)
  deriving DecidableEq, Repr

/-- services/notion.ts lines 96-138, findExistingNotionPage: strategies in
fixed order (ID, Number, URL), each returning the first query result;
verifyAndFixNotionId runs on every hit, and a failing patch
(patchSucceeds = false) is swallowed. -/
def findExistingNotionPage (db : List NotionPage) (item : GitHubItem)
    (patchSucceeds : Bool) : ResolveOutcome :=
  match searchById db item.id with
  | page :: _ =>
    let w := verifyAndFixWrites page item.id
    ⟨some page, [1], w, if patchSucceeds then w else []⟩
  | [] =>
    match searchByNumber db item.number with
    | page :: _ =>
      let w := verifyAndFixWrites page item.id
      ⟨some page, [1, 2], w, if patchSucceeds then w else []⟩
    | [] =>
      match searchByUrl db item.htmlUrl with
      | page :: _ =>
        let w := verifyAndFixWrites page item.id
        ⟨some page, [1, 2, 3], w, if patchSucceeds then w else []⟩
      | [] => ⟨none, [1, 2, 3], [], []⟩

/-! ### Batch reconciliation — index.ts main loop and
services/sync-processor.ts processAllItems

The per-item body (resolution, create, update, status sync) is abstracted as
a step function returning either success or a thrown error message; the two
batch drivers differ only in what they do with a thrown error.
-/

structure SyncItem where
  isPullRequest : Bool
  number : Nat
  deriving DecidableEq, Repr

/-- The itemType string of index.ts line 81 / sync-processor.ts line 20. -/
def itemTypeName (it : SyncItem) : String :=
  if it.isPullRequest then "Pull Request" else "Issue"

structure SyncError where
  itemType : String
  itemNumber : Nat
  cause : String
  deriving DecidableEq, Repr

/-- utils/error-handler.ts createSyncError: wraps a failure with the failing
item's type and number. -/
def createSyncError (itemType : String) (itemNumber : Nat) (cause : String) :
    SyncError :=
  ⟨itemType, itemNumber, cause⟩

def stepOk (r : Except String Unit) : Bool :=
  match r with
  | .ok _ => true
  | .error _ => false

/-- sync-processor.ts lines 14-48, processSingleItem: runs the item body,
and on an exception wraps it into a SyncError and rethrows. -/
def processSingleItem (step : SyncItem → Except String Unit) (it : SyncItem) :
    Except SyncError Unit :=
  match step it with
  | .ok _ => .ok ()
  | .error cause => .error (createSyncError (itemTypeName it) it.number cause)

/-- sync-processor.ts lines 111-118, processAllItems: awaits each item in
order with no try/catch, so the first rethrown SyncError propagates.
Returns the attempted items and the propagated error, if any. -/
def processAllItems (step : SyncItem → Except String Unit) :
    List SyncItem → List SyncItem × Option SyncError
  | [] => ([], none)
  | it :: rest =>
    match processSingleItem step it with
    | .ok _ =>
      let r := processAllItems step rest
      (it :: r.1, r.2)
    | .error e => ([it], some e)

/-- index.ts lines 72-128: the main sync loop, whose per-item try/catch logs
the failing item's type and number and continues with the next item.
Returns the attempted items and the recorded (type, number) failures. -/
def mainSyncLoop (step : SyncItem → Except String Unit) :
    List SyncItem → List SyncItem × List (String × Nat)
  | [] => ([], [])
  | it :: rest =>
    let r := mainSyncLoop step rest
    match step it with
    | .ok _ => (it :: r.1, r.2)
    | .error _ => (it :: r.1, (itemTypeName it, it.number) :: r.2)

/-! ### Status syncing — sync-processor.ts syncProjectStatus and the
reverse-sync processing loop -/

/-- JavaScript strict inequality between the destination's current status
(a string, or undefined when the page has no status) and the translated
target value. -/
def statusStrictNe (current : Option String) (target : JsVal) : Bool :=
  match current, target with
  | some s, .str t => !(s == t)
  | _, _ => true

/-- sync-processor.ts lines 85-109, syncProjectStatus: when a GitHub
Projects status is found it is translated and written unconditionally; when
none is found nothing is written.  The current destination status is not
consulted. -/
def syncProjectStatusWrites (githubStatus : Option String) (pageId : String) :
    List (String × JsVal) :=
  match githubStatus with
  | some gs => [(pageId, mapGitHubStatusToNotion gs)]
  | none => []

/-- One matched-or-unmatched entry of the reverse-sync processing loop:
the Notion page id and current status, whether a GitHub issue was matched,
and the GitHub Projects status fetched for it. -/
structure ReverseItem where
  pageId : String
  currentStatus : Option String
  matched : Bool
  githubStatus : Option String
  deriving DecidableEq, Repr

structure ReverseSummary where
  matchedCount : Nat
  updatedCount : Nat
  skippedCount : Nat
  unmatchedCount : Nat
  deriving DecidableEq, Repr

def addSummary (a b : ReverseSummary) : ReverseSummary :=
  ⟨a.matchedCount + b.matchedCount, a.updatedCount + b.updatedCount,
   a.skippedCount + b.skippedCount, a.unmatchedCount + b.unmatchedCount⟩

/-- reverse-sync.ts lines 299-339, one iteration of the processing loop:
count the match, and when a GitHub status exists and strictly differs from
the current Notion status, count an update and — only in a live run — emit
the status-patch write.  The dryRun guard sits exactly at the write call
site (line 314); every decision is taken before it. -/
def reverseSyncStep (dryRun : Bool) (it : ReverseItem) :
    ReverseSummary × List (String × JsVal) :=
  if it.matched then
    match it.githubStatus with
    | some gs =>
      let target := mapGitHubStatusToNotion gs
      if statusStrictNe it.currentStatus target then
        (⟨1, 1, 0, 0⟩, if dryRun then [] else [(it.pageId, target)])
      else (⟨1, 0, 1, 0⟩, [])
    | none => (⟨1, 0, 1, 0⟩, [])
  else (⟨0, 0, 0, 1⟩, [])

/-- The whole reverse-sync processing loop: fold the per-item step over the
match results, accumulating counters and writes. -/
def reverseSyncRun (dryRun : Bool) :
    List ReverseItem → ReverseSummary × List (String × JsVal)
  | [] => (⟨0, 0, 0, 0⟩, [])
  | it :: rest =>
    let s := reverseSyncStep dryRun it
    let r := reverseSyncRun dryRun rest
    (addSummary s.1 r.1, s.2 ++ r.2)

/-- Replay status writes against a destination-state snapshot (page id to
status value). -/
def applyStatusWrites (writes : List (String × JsVal)) (db : String → JsVal) :
    String → JsVal :=
  writes.foldl (fun acc w => fun pid => if pid == w.1 then w.2 else acc pid) db

/-- A per-item body that throws on item number 1 and succeeds elsewhere
(used as a concrete batch fixture). -/
def failingStep : SyncItem → Except String Unit :=
  fun it => if it.number == 1 then .error "boom" else .ok ()

/-! ## Supporting lemmas -/

theorem toNat_charOfNat (n : Nat) (h : n < 55296) : (Char.ofNat n).toNat = n := by
  simp only [Char.ofNat]
  rw [dif_pos (Or.inl h)]
  rfl

theorem symbolPairs_dom_ge : ∀ p ∈ symbolPairs, 12300 ≤ p.1.toNat := by decide

theorem symbolPairs_img_le : ∀ p ∈ symbolPairs, p.2.toNat ≤ 126 := by decide

theorem symbolPairs_img_not_space : ∀ p ∈ symbolPairs, isJsSpace p.2 = false := by decide

theorem symbolMap_of_toNat_lt (c : Char) (h : c.toNat < 12300) : symbolMap c = c := by
  have hf : symbolPairs.find? (fun p => p.1 == c) = none := by
    rw [List.find?_eq_none]
    intro p hp hbeq
    have hge := symbolPairs_dom_ge p hp
    have hpc : p.1 = c := beq_iff_eq.mp hbeq
    rw [hpc] at hge
    omega
  simp [symbolMap, hf]

theorem symbolMap_cases (c : Char) :
    symbolMap c = c ∨ ∃ p ∈ symbolPairs, symbolMap c = p.2 := by
  unfold symbolMap
  cases hf : symbolPairs.find? (fun p => p.1 == c) with
  | none => exact Or.inl rfl
  | some p => exact Or.inr ⟨p, List.mem_of_find?_eq_some hf, rfl⟩

theorem symbolMap_idem (c : Char) : symbolMap (symbolMap c) = symbolMap c := by
  rcases symbolMap_cases c with h | ⟨p, hp, h⟩
  · rw [h, h]
  · rw [h]
    exact symbolMap_of_toNat_lt p.2 (by have := symbolPairs_img_le p hp; omega)

theorem shiftFullWidth_toNat_of_fw (c : Char) (h : isFullWidthAlnum c = true) :
    (shiftFullWidth c).toNat = c.toNat - 65248 ∧
    48 ≤ (shiftFullWidth c).toNat ∧ (shiftFullWidth c).toNat ≤ 122 := by
  have hb : (65296 ≤ c.toNat ∧ c.toNat ≤ 65305) ∨ (65313 ≤ c.toNat ∧ c.toNat ≤ 65338) ∨
      (65345 ≤ c.toNat ∧ c.toNat ≤ 65370) := by
    simp only [isFullWidthAlnum, Bool.or_eq_true, Bool.and_eq_true, decide_eq_true_eq] at h
    omega
  have hv : c.toNat - 65248 < 55296 := by omega
  unfold shiftFullWidth
  rw [if_pos h, toNat_charOfNat _ hv]
  omega

theorem shiftFullWidth_of_toNat_lt (c : Char) (h : c.toNat < 65296) :
    shiftFullWidth c = c := by
  unfold shiftFullWidth
  rw [if_neg]
  simp only [isFullWidthAlnum, Bool.or_eq_true, Bool.and_eq_true, decide_eq_true_eq]
  omega

theorem shiftFullWidth_idem (c : Char) :
    shiftFullWidth (shiftFullWidth c) = shiftFullWidth c := by
  cases h : isFullWidthAlnum c with
  | false => unfold shiftFullWidth; rw [if_neg (by simp [h]), if_neg (by simp [h])]
  | true =>
    have := shiftFullWidth_toNat_of_fw c h
    exact shiftFullWidth_of_toNat_lt _ (by omega)

theorem jsToLower_cases (c : Char) :
    jsToLower c = c ∨ (97 ≤ (jsToLower c).toNat ∧ (jsToLower c).toNat ≤ 122) := by
  unfold jsToLower
  by_cases h : (65 ≤ c.toNat && c.toNat ≤ 90) = true
  · rw [if_pos h]
    right
    simp only [Bool.and_eq_true, decide_eq_true_eq] at h
    rw [toNat_charOfNat _ (by omega)]
    omega
  · rw [if_neg h]
    exact Or.inl rfl

theorem jsToLower_of_toNat (c : Char) (h : ¬(65 ≤ c.toNat ∧ c.toNat ≤ 90)) :
    jsToLower c = c := by
  unfold jsToLower
  rw [if_neg]
  simp only [Bool.and_eq_true, decide_eq_true_eq]
  omega

theorem jsToLower_idem (c : Char) : jsToLower (jsToLower c) = jsToLower c := by
  rcases jsToLower_cases c with h | h
  · rw [h, h]
  · exact jsToLower_of_toNat _ (by omega)

theorem isJsSpace_of_toNat (c : Char) (h : 33 ≤ c.toNat ∧ c.toNat ≤ 159) :
    isJsSpace c = false := by
  simp only [isJsSpace, Bool.or_eq_false_iff, Bool.and_eq_false_iff]
  simp only [beq_eq_false_iff_ne, ne_eq, decide_eq_false_iff_not]
  omega

theorem dropWhile_eq_self_of {α} (p : α → Bool) {l : List α}
    (h : ∀ c ∈ l, p c = false) : l.dropWhile p = l := by
  cases l with
  | nil => rfl
  | cons a l => simp [List.dropWhile_cons, h a (List.mem_cons_self a l)]

theorem trimJs_eq_self {l : List Char} (h : ∀ c ∈ l, isJsSpace c = false) :
    trimJs l = l := by
  unfold trimJs
  rw [dropWhile_eq_self_of _ h,
    dropWhile_eq_self_of _ (fun c hc => h c (List.mem_reverse.mp hc)),
    List.reverse_reverse]

theorem mem_of_mem_dropWhile {α} {p : α → Bool} {l : List α} {c : α}
    (h : c ∈ l.dropWhile p) : c ∈ l := by
  induction l with
  | nil => simp at h
  | cons a l ih =>
    rw [List.dropWhile_cons] at h
    by_cases hp : p a = true
    · rw [if_pos hp] at h
      exact List.mem_cons_of_mem a (ih h)
    · rw [if_neg hp] at h
      exact h

theorem mem_of_mem_trimJs {l : List Char} {c : Char} (h : c ∈ trimJs l) : c ∈ l := by
  unfold trimJs at h
  have h1 := mem_of_mem_dropWhile (List.mem_reverse.mp h)
  exact mem_of_mem_dropWhile (List.mem_reverse.mp h1)

theorem mem_collapseSpacesJs {l : List Char} {c : Char}
    (h : c ∈ collapseSpacesJs l) : c = ' ' ∨ c ∈ l := by
  induction l with
  | nil => simp [collapseSpacesJs] at h
  | cons a l ih =>
    cases l with
    | nil =>
      simp only [collapseSpacesJs, List.mem_singleton] at h
      subst h
      by_cases hs : isJsSpace a = true
      · left; rw [if_pos hs]
      · right; rw [if_neg hs]; exact List.mem_cons_self a []
    | cons b l2 =>
      simp only [collapseSpacesJs] at h
      by_cases hab : (isJsSpace a && isJsSpace b) = true
      · rw [if_pos hab] at h
        rcases ih h with h1 | h1
        · exact Or.inl h1
        · exact Or.inr (List.mem_cons_of_mem a h1)
      · rw [if_neg hab] at h
        rcases List.mem_cons.mp h with h1 | h1
        · subst h1
          by_cases hs : isJsSpace a = true
          · left; rw [if_pos hs]
          · right; rw [if_neg hs]; exact List.mem_cons_self a (b :: l2)
        · rcases ih h1 with h2 | h2
          · exact Or.inl h2
          · exact Or.inr (List.mem_cons_of_mem a h2)

theorem collapseSpacesJs_eq_self {l : List Char}
    (h : ∀ c ∈ l, isJsSpace c = false) : collapseSpacesJs l = l := by
  induction l with
  | nil => rfl
  | cons a l ih =>
    cases l with
    | nil => simp [collapseSpacesJs, h a (List.mem_cons_self a [])]
    | cons b l2 =>
      have ha := h a (List.mem_cons_self a (b :: l2))
      have hb := h b (List.mem_cons_of_mem a (List.mem_cons_self b l2))
      simp only [collapseSpacesJs, ha, hb, Bool.and_self, if_neg, Bool.false_eq_true,
        not_false_eq_true, if_false]
      rw [ih (fun c hc => h c (List.mem_cons_of_mem a hc))]

theorem map_eq_self_of {α} {f : α → α} {l : List α} (h : ∀ a ∈ l, f a = a) :
    l.map f = l := by
  induction l with
  | nil => rfl
  | cons a l ih =>
    rw [List.map_cons, h a (List.mem_cons_self a l),
      ih (fun c hc => h c (List.mem_cons_of_mem a hc))]

theorem filter_eq_self_of {α} {p : α → Bool} {l : List α} (h : ∀ a ∈ l, p a = true) :
    l.filter p = l :=
  List.filter_eq_self.mpr h


theorem normalizeCore_eq (cs : List Char) :
    normalizeCore cs =
      ((trimJs (collapseSpacesJs
          ((((trimJs (stripPbiHeader cs)).map symbolMap).map shiftFullWidth).map
            (fun c => if c == Char.ofNat 0x3000 then ' ' else c)))).map jsToLower).filter
        (fun c => !(isJsSpace c)) := rfl

theorem q_shift_symbol (w : Char) :
    symbolMap (shiftFullWidth (symbolMap w)) = shiftFullWidth (symbolMap w) ∧
    shiftFullWidth (shiftFullWidth (symbolMap w)) = shiftFullWidth (symbolMap w) := by
  constructor
  · cases hfw : isFullWidthAlnum (symbolMap w) with
    | true =>
      have hb := shiftFullWidth_toNat_of_fw _ hfw
      exact symbolMap_of_toNat_lt _ (by omega)
    | false =>
      have heq : shiftFullWidth (symbolMap w) = symbolMap w := by
        unfold shiftFullWidth
        rw [if_neg (by simp [hfw])]
      rw [heq]
      exact symbolMap_idem w
  · exact shiftFullWidth_idem _

theorem q_toLower {x : Char} (hsym : symbolMap x = x) (hsh : shiftFullWidth x = x) :
    symbolMap (jsToLower x) = jsToLower x ∧ shiftFullWidth (jsToLower x) = jsToLower x := by
  rcases jsToLower_cases x with h | h
  · rw [h]
    exact ⟨hsym, hsh⟩
  · exact ⟨symbolMap_of_toNat_lt _ (by omega), shiftFullWidth_of_toNat_lt _ (by omega)⟩

theorem normalizeCore_chars (cs : List Char) :
    ∀ c ∈ normalizeCore cs,
      isJsSpace c = false ∧ symbolMap c = c ∧ shiftFullWidth c = c ∧ jsToLower c = c := by
  intro c hc
  rw [normalizeCore_eq] at hc
  have hfil := List.mem_filter.mp hc
  have hnospace : isJsSpace c = false := by
    have := hfil.2
    simpa using this
  obtain ⟨x7, hx7, hcx⟩ := List.mem_map.mp hfil.1
  have hx6 := mem_of_mem_trimJs hx7
  have hx5 := mem_collapseSpacesJs hx6
  have hq : symbolMap x7 = x7 ∧ shiftFullWidth x7 = x7 := by
    rcases hx5 with hsp | hx5
    · subst hsp
      exact ⟨symbolMap_of_toNat_lt _ (by decide), shiftFullWidth_of_toNat_lt _ (by decide)⟩
    · obtain ⟨x4, hx4, hx47⟩ := List.mem_map.mp hx5
      obtain ⟨x3, hx3, hx34⟩ := List.mem_map.mp hx4
      obtain ⟨x2, hx2m, hx23⟩ := List.mem_map.mp hx3
      subst hx47
      subst hx34
      subst hx23
      by_cases hideo : (shiftFullWidth (symbolMap x2) == Char.ofNat 0x3000) = true
      · rw [if_pos hideo]
        exact ⟨symbolMap_of_toNat_lt _ (by decide), shiftFullWidth_of_toNat_lt _ (by decide)⟩
      · rw [if_neg hideo]
        exact ⟨(q_shift_symbol x2).1, (q_shift_symbol x2).2⟩
  subst hcx
  exact ⟨hnospace, (q_toLower hq.1 hq.2).1, (q_toLower hq.1 hq.2).2, jsToLower_idem x7⟩

theorem stripPbiHeader_of_none {cs : List Char} (h : pbiSplit cs = none) :
    stripPbiHeader cs = cs := by
  unfold stripPbiHeader
  rw [h]

theorem normalizeCore_idem_of_no_header {cs : List Char}
    (h : pbiSplit (normalizeCore cs) = none) :
    normalizeCore (normalizeCore cs) = normalizeCore cs := by
  have hch := normalizeCore_chars cs
  have hnospace : ∀ c ∈ normalizeCore cs, isJsSpace c = false := fun c hc => (hch c hc).1
  have hideo : ∀ c ∈ normalizeCore cs,
      (if c == Char.ofNat 0x3000 then ' ' else c) = c := by
    intro c hc
    rw [if_neg]
    intro hbeq
    have hce : c = Char.ofNat 0x3000 := beq_iff_eq.mp hbeq
    have := hnospace c hc
    rw [hce] at this
    simp [isJsSpace] at this
  conv =>
    lhs
    rw [normalizeCore_eq, stripPbiHeader_of_none h, trimJs_eq_self hnospace,
      map_eq_self_of (fun c hc => (hch c hc).2.1),
      map_eq_self_of (fun c hc => (hch c hc).2.2.1),
      map_eq_self_of hideo, collapseSpacesJs_eq_self hnospace, trimJs_eq_self hnospace,
      map_eq_self_of (fun c hc => (hch c hc).2.2.2),
      filter_eq_self_of (fun c hc => by rw [hnospace c hc]; rfl)]

theorem takeWhile_digits (d rest' : List Char) (hall : ∀ c ∈ d, c.isDigit = true) :
    (d ++ ':' :: rest').takeWhile Char.isDigit = d ∧
    (d ++ ':' :: rest').dropWhile Char.isDigit = ':' :: rest' := by
  induction d with
  | nil =>
    constructor <;> simp [List.takeWhile_cons, List.dropWhile_cons]
  | cons a d ih =>
    have ha := hall a (List.mem_cons_self a d)
    have ihh := ih (fun c hc => hall c (List.mem_cons_of_mem a hc))
    constructor
    · simp [List.takeWhile_cons, ha, ihh.1]
    · simp [List.dropWhile_cons, ha, ihh.2]

theorem pbiSplit_header (d rest : List Char) (hne : d ≠ [])
    (hall : ∀ c ∈ d, c.isDigit = true) :
    pbiSplit ('P' :: 'B' :: 'I' :: '-' :: (d ++ ':' :: rest)) = some (d, rest) := by
  have h1 := takeWhile_digits d rest hall
  simp only [pbiSplit, h1.1, h1.2]
  rw [if_pos (by decide), if_pos]
  simp [hne]

theorem stripPbiHeader_header (d rest : List Char) (hne : d ≠ [])
    (hall : ∀ c ∈ d, c.isDigit = true) :
    stripPbiHeader ('P' :: 'B' :: 'I' :: '-' :: (d ++ ':' :: rest)) =
      rest.dropWhile isJsSpace := by
  unfold stripPbiHeader
  rw [pbiSplit_header d rest hne hall]

theorem startsWithChars_iff (l p : List Char) :
    startsWithChars l p = true ↔ ∃ t, l = p ++ t := by
  induction p generalizing l with
  | nil => simp [startsWithChars]
  | cons b bs ih =>
    cases l with
    | nil => simp [startsWithChars]
    | cons a as =>
      simp only [startsWithChars, Bool.and_eq_true, beq_iff_eq, ih, List.cons_append]
      constructor
      · rintro ⟨rfl, t, rfl⟩
        exact ⟨t, rfl⟩
      · rintro ⟨t, h⟩
        injection h with h1 h2
        exact ⟨h1, t, h2⟩

theorem containsChars_iff (l n : List Char) :
    containsChars l n = true ↔ ∃ pre post, l = pre ++ (n ++ post) := by
  induction l with
  | nil =>
    cases n with
    | nil =>
      constructor
      · intro _
        exact ⟨[], [], rfl⟩
      · intro _
        rfl
    | cons b bs =>
      simp [containsChars]
  | cons a as ih =>
    simp only [containsChars, Bool.or_eq_true, ih, startsWithChars_iff]
    constructor
    · rintro (⟨t, h⟩ | ⟨pre, post, h⟩)
      · exact ⟨[], t, by simpa using h⟩
      · exact ⟨a :: pre, post, by simp [h]⟩
    · rintro ⟨pre, post, h⟩
      cases pre with
      | nil => exact Or.inl ⟨post, by simpa using h⟩
      | cons x xs =>
        injection h with h1 h2
        exact Or.inr ⟨xs, post, h2⟩

theorem titleLoosePred_iff (nt : String) (issue : GitHubIssue) :
    titleLoosePred nt issue = true ↔
      (nt.length < (normalizeTitle issue.title).length ∧
        ∃ pre post, (normalizeTitle issue.title).data = pre ++ (nt.data ++ post)) ∨
      ((normalizeTitle issue.title).length < nt.length ∧
        ∃ pre post, nt.data = pre ++ ((normalizeTitle issue.title).data ++ post)) := by
  unfold titleLoosePred
  by_cases h1 : nt.length < (normalizeTitle issue.title).length
  · have h2 : ¬(normalizeTitle issue.title).length < nt.length := by omega
    simp [h1, h2, jsIncludes, containsChars_iff]
  · by_cases h2 : (normalizeTitle issue.title).length < nt.length
    · simp [h1, h2, jsIncludes, containsChars_iff]
    · simp [h1, h2]


theorem mainSyncLoop_spec (step : SyncItem → Except String Unit) (items : List SyncItem) :
    mainSyncLoop step items =
      (items, (items.filter (fun it => !(stepOk (step it)))).map
        (fun it => (itemTypeName it, it.number))) := by
  induction items with
  | nil => rfl
  | cons it rest ih =>
    cases hs : step it with
    | ok v => simp [mainSyncLoop, hs, ih, List.filter_cons, stepOk]
    | error e => simp [mainSyncLoop, hs, ih, List.filter_cons, stepOk]

theorem processAllItems_all_ok (step : SyncItem → Except String Unit)
    (items : List SyncItem) (h : ∀ it ∈ items, stepOk (step it) = true) :
    processAllItems step items = (items, none) := by
  induction items with
  | nil => rfl
  | cons it rest ih =>
    have hit := h it (List.mem_cons_self it rest)
    cases hs : step it with
    | error e => rw [hs] at hit; simp [stepOk] at hit
    | ok v =>
      simp [processAllItems, processSingleItem, hs,
        ih (fun j hj => h j (List.mem_cons_of_mem it hj))]

theorem processAllItems_first_error (step : SyncItem → Except String Unit)
    (pre : List SyncItem) (it : SyncItem) (post : List SyncItem) (cause : String)
    (hpre : ∀ j ∈ pre, stepOk (step j) = true) (herr : step it = Except.error cause) :
    processAllItems step (pre ++ it :: post) =
      (pre ++ [it], some (createSyncError (itemTypeName it) it.number cause)) := by
  induction pre with
  | nil => simp [processAllItems, processSingleItem, herr]
  | cons a pre ih =>
    have ha := hpre a (List.mem_cons_self a pre)
    cases hs : step a with
    | error e => rw [hs] at ha; simp [stepOk] at ha
    | ok v =>
      have ihh := ih (fun j hj => hpre j (List.mem_cons_of_mem a hj))
      show processAllItems step (a :: (pre ++ it :: post)) = _
      simp only [processAllItems, processSingleItem, hs]
      rw [ihh]
      rfl

/-- C1 (counterexample): with destination title "abc" and a single candidate
titled "abcdef", the normalized titles differ (no exact match exists), yet
matchByTitle returns the candidate via its substring fallback instead of the
null the claim requires. -/
theorem matchByTitle_partial_overlap_match :
    matchByTitle "abc" [⟨1, "abcdef"⟩] = some ⟨1, "abcdef"⟩ ∧
    normalizeTitle "abcdef" ≠ normalizeTitle "abc" :=
  ⟨by decide, by decide⟩

/-- C1 (amended): matchByTitle returns null if and only if no candidate's
normalized title equals the destination's normalized title exactly AND no
candidate's normalized title properly contains, or is properly contained in,
the destination's normalized title; the substring fallback is real, so
failing the exact rule alone does not force a null result. -/
theorem matchByTitle_none_characterization (t : String) (gs : List GitHubIssue) :
    matchByTitle t gs = none ↔
      ∀ g ∈ gs,
        normalizeTitle g.title ≠ normalizeTitle t ∧
        ¬((normalizeTitle t).length < (normalizeTitle g.title).length ∧
          ∃ pre post, (normalizeTitle g.title).data = pre ++ ((normalizeTitle t).data ++ post)) ∧
        ¬((normalizeTitle g.title).length < (normalizeTitle t).length ∧
          ∃ pre post, (normalizeTitle t).data = pre ++ ((normalizeTitle g.title).data ++ post)) := by
  have hm : matchByTitle t gs = none ↔
      (gs.find? (titleExactPred (normalizeTitle t)) = none ∧
        gs.find? (titleLoosePred (normalizeTitle t)) = none) := by
    unfold matchByTitle
    cases hf : gs.find? (titleExactPred (normalizeTitle t)) <;> simp [hf]
  rw [hm, List.find?_eq_none, List.find?_eq_none]
  constructor
  · rintro ⟨h1, h2⟩ g hg
    refine ⟨?_, ?_, ?_⟩
    · intro he
      exact h1 g hg (by simp [titleExactPred, he])
    · intro hc
      exact h2 g hg ((titleLoosePred_iff _ g).mpr (Or.inl hc))
    · intro hc
      exact h2 g hg ((titleLoosePred_iff _ g).mpr (Or.inr hc))
  · intro h
    constructor
    · intro g hg hp
      exact (h g hg).1 (by simpa [titleExactPred] using hp)
    · intro g hg hp
      rcases (titleLoosePred_iff _ g).mp hp with hc | hc
      · exact (h g hg).2.1 hc
      · exact (h g hg).2.2 hc

/-- C1 (witness): the characterization applied to a concrete miss. -/
theorem matchByTitle_none_characterization_witness :
    ∀ g ∈ ([⟨1, "xyz"⟩] : List GitHubIssue),
      normalizeTitle g.title ≠ normalizeTitle "abc" ∧
      ¬((normalizeTitle "abc").length < (normalizeTitle g.title).length ∧
        ∃ pre post, (normalizeTitle g.title).data = pre ++ ((normalizeTitle "abc").data ++ post)) ∧
      ¬((normalizeTitle g.title).length < (normalizeTitle "abc").length ∧
        ∃ pre post, (normalizeTitle "abc").data = pre ++ ((normalizeTitle g.title).data ++ post)) :=
  (matchByTitle_none_characterization "abc" [⟨1, "xyz"⟩]).mp (by decide)

/-- C2 (counterexample): with a step that throws on item 1 of a two-item
batch, processAllItems never attempts item 2 and propagates a SyncError, so
the claim that a single item's failure never aborts the batch fails on this
entry point; the index.ts main loop, by contrast, attempts both and records
the failure. -/
theorem processAllItems_aborts_on_failure :
    processAllItems failingStep [⟨false, 1⟩, ⟨false, 2⟩] =
      ([⟨false, 1⟩], some ⟨"Issue", 1, "boom"⟩) ∧
    ([⟨false, 1⟩] : List SyncItem) ≠ [⟨false, 1⟩, ⟨false, 2⟩] ∧
    mainSyncLoop failingStep [⟨false, 1⟩, ⟨false, 2⟩] =
      ([⟨false, 1⟩, ⟨false, 2⟩], [("Issue", 1)]) :=
  ⟨by decide, by decide, by decide⟩

/-- C2 (amended): the index.ts main loop attempts every item and records
each failure with the failing item's type and sequence number without ever
throwing; processAllItems, however, attempts exactly the items up to and
including the first failing one and propagates that item's SyncError
(which does carry the item's type and sequence number). -/
theorem batch_failure_isolation (step : SyncItem → Except String Unit)
    (items : List SyncItem) :
    (mainSyncLoop step items).1 = items ∧
    (mainSyncLoop step items).2 =
      (items.filter (fun it => !(stepOk (step it)))).map
        (fun it => (itemTypeName it, it.number)) ∧
    ((∀ it ∈ items, stepOk (step it) = true) → processAllItems step items = (items, none)) ∧
    (∀ pre it post cause, items = pre ++ it :: post →
      (∀ j ∈ pre, stepOk (step j) = true) → step it = Except.error cause →
      processAllItems step items =
        (pre ++ [it], some (createSyncError (itemTypeName it) it.number cause))) := by
  refine ⟨?_, ?_, processAllItems_all_ok step items, ?_⟩
  · rw [mainSyncLoop_spec]
  · rw [mainSyncLoop_spec]
  · intro pre it post cause heq hpre herr
    subst heq
    exact processAllItems_first_error step pre it post cause hpre herr

/-- C2 (witness): the amended statement applied to the two-item fixture. -/
theorem batch_failure_isolation_witness :
    processAllItems failingStep ([] ++ (⟨false, 1⟩ : SyncItem) :: [⟨false, 2⟩]) =
      ([] ++ [⟨false, 1⟩],
        some (createSyncError (itemTypeName ⟨false, 1⟩) (SyncItem.number ⟨false, 1⟩) "boom")) :=
  (batch_failure_isolation failingStep ([] ++ (⟨false, 1⟩ : SyncItem) :: [⟨false, 2⟩])).2.2.2
    [] ⟨false, 1⟩ [⟨false, 2⟩] "boom" rfl (by decide) rfl

/-- C3: the spec claims the status translator is a total function into
strings, fixing the six known labels and sending every other input to
"Not started".  It does fix the known labels and defaults ordinary unknown
labels, but the object-literal lookup leaks Object.prototype: the input
"toString" returns the inherited toString function — not a string, and not
the default — so the code contradicts the translator's declared
string-to-string contract. -/
theorem mapGitHubStatusToNotion_prototype_leak :
    mapGitHubStatusToNotion "toString" = JsVal.fn "toString" ∧
    isStringValue (mapGitHubStatusToNotion "toString") = false ∧
    mapGitHubStatusToNotion "お手すきに" = JsVal.str "お手すきに" ∧
    mapGitHubStatusToNotion "Backlog" = JsVal.str "Backlog" ∧
    mapGitHubStatusToNotion "今週やる" = JsVal.str "今週やる" ∧
    mapGitHubStatusToNotion "着手中" = JsVal.str "着手中" ∧
    mapGitHubStatusToNotion "相談中" = JsVal.str "相談中" ∧
    mapGitHubStatusToNotion "完了" = JsVal.str "完了" ∧
    mapGitHubStatusToNotion "" = JsVal.str "Not started" ∧
    mapGitHubStatusToNotion "In Progress" = JsVal.str "Not started" :=
  ⟨by decide, by decide, by decide, by decide, by decide, by decide, by decide,
    by decide, by decide, by decide⟩

/-- C4 (counterexample): for an operation that fails twice with HTTP 500 and
then succeeds, the wrapper makes 3 attempts and sleeps 500ms and then
1000ms — not the 1000ms and 2000ms the claim computes. -/
theorem retryWithBackoff_observed_delays :
    retryWithBackoff flaky500 = ([500, 1000], 3, Except.ok 7) ∧
    ([500, 1000] : List Nat) ≠ [1000, 2000] :=
  ⟨rfl, by decide⟩

/-- C4 (amended): for every operation the wrapper makes at most 3 attempts,
sleeps exactly once per retry, and the delay before retry n (n ≥ 1, list
index n-1) is min(500 · 2^(n-1), 2000): 500ms before the first retry and
1000ms before the second. -/
theorem retryWithBackoff_attempt_delay_policy (op : Nat → Except JsError Nat) :
    (retryWithBackoff op).2.1 ≤ 3 ∧
    (retryWithBackoff op).2.1 = (retryWithBackoff op).1.length + 1 ∧
    ∀ i, i < (retryWithBackoff op).1.length →
      (retryWithBackoff op).1.getD i 0 = min (500 * 2 ^ i) 2000 := by
  unfold retryWithBackoff
  cases h0 : op 0 with
  | ok v =>
    have hEq : retryAux op 500 2000 0 2 = ([], 1, Except.ok v) := by
      unfold retryAux
      rw [h0]
    rw [hEq]
    refine ⟨?_, rfl, ?_⟩
    · show (1 : Nat) ≤ 3
      omega
    · intro i h
      simp at h
  | error e0 =>
    cases he0 : isRetryableError e0 with
    | false =>
      have hEq : retryAux op 500 2000 0 2 = ([], 1, Except.error e0) := by
        unfold retryAux
        rw [h0]
        simp [he0]
      rw [hEq]
      refine ⟨?_, rfl, ?_⟩
      · show (1 : Nat) ≤ 3
        omega
      · intro i h
        simp at h
    | true =>
      have hrest :
          (retryAux op 500 2000 1 1).2.1 ≤ 2 ∧
          (retryAux op 500 2000 1 1).2.1 = (retryAux op 500 2000 1 1).1.length + 1 ∧
          ((retryAux op 500 2000 1 1).1 = [] ∨
            (retryAux op 500 2000 1 1).1 = [min (500 * 2 ^ 1) 2000]) := by
        cases h1 : op 1 with
        | ok v =>
          have hEq : retryAux op 500 2000 1 1 = ([], 1, Except.ok v) := by
            unfold retryAux
            rw [h1]
          rw [hEq]
          exact ⟨(by omega : (1 : Nat) ≤ 2), rfl, Or.inl rfl⟩
        | error e1 =>
          cases he1 : isRetryableError e1 with
          | false =>
            have hEq : retryAux op 500 2000 1 1 = ([], 1, Except.error e1) := by
              unfold retryAux
              rw [h1]
              simp [he1]
            rw [hEq]
            exact ⟨(by omega : (1 : Nat) ≤ 2), rfl, Or.inl rfl⟩
          | true =>
            cases h2 : op 2 with
            | ok v =>
              have hEq : retryAux op 500 2000 1 1 =
                  ([min (500 * 2 ^ 1) 2000], 2, Except.ok v) := by
                unfold retryAux
                rw [h1]
                simp only [he1, if_true]
                unfold retryAux
                rw [h2]
              rw [hEq]
              exact ⟨(by omega : (2 : Nat) ≤ 2), rfl, Or.inr rfl⟩
            | error e2 =>
              have hEq : retryAux op 500 2000 1 1 =
                  ([min (500 * 2 ^ 1) 2000], 2, Except.error e2) := by
                unfold retryAux
                rw [h1]
                simp only [he1, if_true]
                unfold retryAux
                rw [h2]
              rw [hEq]
              exact ⟨(by omega : (2 : Nat) ≤ 2), rfl, Or.inr rfl⟩
      have hEq : retryAux op 500 2000 0 2 =
          (min (500 * 2 ^ 0) 2000 :: (retryAux op 500 2000 1 1).1,
            (retryAux op 500 2000 1 1).2.1 + 1, (retryAux op 500 2000 1 1).2.2) := by
        conv =>
          lhs
          unfold retryAux
        rw [h0]
        simp [he0]
      rw [hEq]
      obtain ⟨hb, hl, hcases⟩ := hrest
      refine ⟨?_, ?_, ?_⟩
      · show (retryAux op 500 2000 1 1).2.1 + 1 ≤ 3
        omega
      · show (retryAux op 500 2000 1 1).2.1 + 1 =
          (min (500 * 2 ^ 0) 2000 :: (retryAux op 500 2000 1 1).1).length + 1
        rw [List.length_cons, hl]
      · intro i h
        show (min (500 * 2 ^ 0) 2000 :: (retryAux op 500 2000 1 1).1).getD i 0 =
          min (500 * 2 ^ i) 2000
        rcases hcases with hc | hc
        · rw [hc] at h ⊢
          simp only [List.length_cons, List.length_nil] at h
          cases i with
          | zero => rfl
          | succ n => omega
        · rw [hc] at h ⊢
          simp only [List.length_cons, List.length_nil] at h
          cases i with
          | zero => rfl
          | succ n =>
            cases n with
            | zero => rfl
            | succ m => omega

/-- C4 (witness): the policy applied to the concrete flaky operation,
discharging the index bound for the second retry. -/
theorem retryWithBackoff_attempt_delay_policy_witness :
    (retryWithBackoff flaky500).1.getD 1 0 = min (500 * 2 ^ 1) 2000 :=
  (retryWithBackoff_attempt_delay_policy flaky500).2.2 1 (by decide)


theorem verifyAndFixWrites_eq (p : NotionPage) (v : String) :
    verifyAndFixWrites p v = if p.idProp = some v then [] else [(p.pageId, v)] := by
  unfold verifyAndFixWrites
  by_cases h : p.idProp = some v
  · rw [if_pos (by simp [h]), if_pos h]
  · rw [if_neg (by simp [h]), if_neg h]

/-- C5: the forward resolver tries ID, then Number, then URL, in that order;
it returns the first result of the first non-empty query without consulting
later strategies, and it returns null exactly when no record in the database
matches any of the three criteria. -/
theorem findExistingNotionPage_strategy_order (db : List NotionPage)
    (item : GitHubItem) (ps : Bool) :
    (∀ p rest, searchById db item.id = p :: rest →
      (findExistingNotionPage db item ps).page = some p ∧
      (findExistingNotionPage db item ps).strategiesTried = [1]) ∧
    (searchById db item.id = [] → ∀ p rest, searchByNumber db item.number = p :: rest →
      (findExistingNotionPage db item ps).page = some p ∧
      (findExistingNotionPage db item ps).strategiesTried = [1, 2]) ∧
    (searchById db item.id = [] → searchByNumber db item.number = [] →
      ∀ p rest, searchByUrl db item.htmlUrl = p :: rest →
      (findExistingNotionPage db item ps).page = some p ∧
      (findExistingNotionPage db item ps).strategiesTried = [1, 2, 3]) ∧
    ((findExistingNotionPage db item ps).page = none ↔
      ∀ p ∈ db, ¬p.idProp = some item.id ∧ ¬p.numberProp = some item.number ∧
        ¬p.urlProp = some item.htmlUrl) := by
  refine ⟨?_, ?_, ?_, ?_⟩
  · intro p rest h1
    simp [findExistingNotionPage, h1]
  · intro h1 p rest h2
    simp [findExistingNotionPage, h1, h2]
  · intro h1 h2 p rest h3
    simp [findExistingNotionPage, h1, h2, h3]
  · constructor
    · intro hnone
      cases h1 : searchById db item.id with
      | cons p rest => simp [findExistingNotionPage, h1] at hnone
      | nil =>
        cases h2 : searchByNumber db item.number with
        | cons p rest => simp [findExistingNotionPage, h1, h2] at hnone
        | nil =>
          cases h3 : searchByUrl db item.htmlUrl with
          | cons p rest => simp [findExistingNotionPage, h1, h2, h3] at hnone
          | nil =>
            intro p hp
            refine ⟨?_, ?_, ?_⟩
            · have := List.filter_eq_nil_iff.mp h1 p hp
              simpa using this
            · have := List.filter_eq_nil_iff.mp h2 p hp
              simpa using this
            · have := List.filter_eq_nil_iff.mp h3 p hp
              simpa using this
    · intro hall
      have h1 : searchById db item.id = [] :=
        List.filter_eq_nil_iff.mpr (fun q hq => by simp [(hall q hq).1])
      have h2 : searchByNumber db item.number = [] :=
        List.filter_eq_nil_iff.mpr (fun q hq => by simp [(hall q hq).2.1])
      have h3 : searchByUrl db item.htmlUrl = [] :=
        List.filter_eq_nil_iff.mpr (fun q hq => by simp [(hall q hq).2.2])
      simp [findExistingNotionPage, h1, h2, h3]

/-- C5 (witness): the strategy order applied to a one-page database hit by
the ID strategy. -/
theorem findExistingNotionPage_strategy_order_witness :
    (findExistingNotionPage [⟨"pg", some "abc", some 7, some "u"⟩] ⟨"abc", 7, "u"⟩ true).page =
      some ⟨"pg", some "abc", some 7, some "u"⟩ ∧
    (findExistingNotionPage [⟨"pg", some "abc", some 7, some "u"⟩]
      ⟨"abc", 7, "u"⟩ true).strategiesTried = [1] :=
  (findExistingNotionPage_strategy_order [⟨"pg", some "abc", some 7, some "u"⟩]
    ⟨"abc", 7, "u"⟩ true).1 ⟨"pg", some "abc", some 7, some "u"⟩ [] (by decide)

/-- C6: when the record is found by the identity strategy no correction
write is attempted; whenever a record is returned, a correction write is
attempted exactly when its stored identity differs from the source id (and
then it patches the matched page with that id); and a failing patch is
swallowed — no write lands, but the matched page is returned all the same. -/
theorem findExistingNotionPage_repair_policy (db : List NotionPage)
    (item : GitHubItem) (ps : Bool) :
    ((∃ p ∈ db, p.idProp = some item.id) →
      (findExistingNotionPage db item ps).attemptedWrites = []) ∧
    (∀ p, (findExistingNotionPage db item ps).page = some p →
      (findExistingNotionPage db item ps).attemptedWrites =
        if p.idProp = some item.id then [] else [(p.pageId, item.id)]) ∧
    (findExistingNotionPage db item false).appliedWrites = [] ∧
    (findExistingNotionPage db item false).page = (findExistingNotionPage db item true).page := by
  refine ⟨?_, ?_, ?_, ?_⟩
  · rintro ⟨p, hp, hid⟩
    cases h1 : searchById db item.id with
    | nil =>
      exfalso
      have := List.filter_eq_nil_iff.mp h1 p hp
      simp [hid] at this
    | cons q rest =>
      have hq : q ∈ db.filter (fun p => p.idProp == some item.id) := by
        rw [show db.filter (fun p => p.idProp == some item.id) = searchById db item.id from rfl,
          h1]
        exact List.mem_cons_self q rest
      have hqid : (q.idProp == some item.id) = true := (List.mem_filter.mp hq).2
      simp [findExistingNotionPage, h1, verifyAndFixWrites, hqid]
  · intro p hpage
    cases h1 : searchById db item.id with
    | cons q rest =>
      rw [show (findExistingNotionPage db item ps).page = some q from by
        simp [findExistingNotionPage, h1]] at hpage
      obtain rfl : q = p := by simpa using hpage
      simp [findExistingNotionPage, h1, verifyAndFixWrites_eq]
    | nil =>
      cases h2 : searchByNumber db item.number with
      | cons q rest =>
        rw [show (findExistingNotionPage db item ps).page = some q from by
          simp [findExistingNotionPage, h1, h2]] at hpage
        obtain rfl : q = p := by simpa using hpage
        simp [findExistingNotionPage, h1, h2, verifyAndFixWrites_eq]
      | nil =>
        cases h3 : searchByUrl db item.htmlUrl with
        | cons q rest =>
          rw [show (findExistingNotionPage db item ps).page = some q from by
            simp [findExistingNotionPage, h1, h2, h3]] at hpage
          obtain rfl : q = p := by simpa using hpage
          simp [findExistingNotionPage, h1, h2, h3, verifyAndFixWrites_eq]
        | nil =>
          rw [show (findExistingNotionPage db item ps).page = none from by
            simp [findExistingNotionPage, h1, h2, h3]] at hpage
          cases hpage
  · cases h1 : searchById db item.id with
    | cons q rest => simp [findExistingNotionPage, h1]
    | nil =>
      cases h2 : searchByNumber db item.number with
      | cons q rest => simp [findExistingNotionPage, h1, h2]
      | nil =>
        cases h3 : searchByUrl db item.htmlUrl with
        | cons q rest => simp [findExistingNotionPage, h1, h2, h3]
        | nil => simp [findExistingNotionPage, h1, h2, h3]
  · cases h1 : searchById db item.id with
    | cons q rest => simp [findExistingNotionPage, h1]
    | nil =>
      cases h2 : searchByNumber db item.number with
      | cons q rest => simp [findExistingNotionPage, h1, h2]
      | nil =>
        cases h3 : searchByUrl db item.htmlUrl with
        | cons q rest => simp [findExistingNotionPage, h1, h2, h3]
        | nil => simp [findExistingNotionPage, h1, h2, h3]

/-- C6 (witness): the repair policy applied to a database whose page was
found by the identity strategy: no write attempted. -/
theorem findExistingNotionPage_repair_policy_witness :
    (findExistingNotionPage [⟨"pg2", some "ghid", some 9, some "url"⟩]
      ⟨"ghid", 9, "url"⟩ true).attemptedWrites = [] :=
  (findExistingNotionPage_repair_policy [⟨"pg2", some "ghid", some 9, some "url"⟩]
    ⟨"ghid", 9, "url"⟩ true).1
    ⟨⟨"pg2", some "ghid", some 9, some "url"⟩, by decide, by decide⟩


theorem reverseSyncStep_dry_writes (it : ReverseItem) : (reverseSyncStep true it).2 = [] := by
  cases hm : it.matched with
  | false => simp [reverseSyncStep, hm]
  | true =>
    cases hg : it.githubStatus with
    | none => simp [reverseSyncStep, hm, hg]
    | some gs =>
      by_cases hne : statusStrictNe it.currentStatus (mapGitHubStatusToNotion gs) = true
      · simp [reverseSyncStep, hm, hg, hne]
      · simp [reverseSyncStep, hm, hg, hne]

theorem reverseSyncStep_summary_dry_eq (it : ReverseItem) :
    (reverseSyncStep true it).1 = (reverseSyncStep false it).1 := by
  cases hm : it.matched with
  | false => simp [reverseSyncStep, hm]
  | true =>
    cases hg : it.githubStatus with
    | none => simp [reverseSyncStep, hm, hg]
    | some gs =>
      by_cases hne : statusStrictNe it.currentStatus (mapGitHubStatusToNotion gs) = true
      · simp [reverseSyncStep, hm, hg, hne]
      · simp [reverseSyncStep, hm, hg, hne]

theorem reverseSyncRun_dry_writes (items : List ReverseItem) :
    (reverseSyncRun true items).2 = [] := by
  induction items with
  | nil => rfl
  | cons it rest ih => simp [reverseSyncRun, reverseSyncStep_dry_writes, ih]

/-- C7 (counterexample): the forward status-sync path issues a status-patch
write whenever an external status is found — here one whose translated value
equals the destination's current status (they do not differ), so the claim's
"only when the destination's current status differs" is violated. -/
theorem syncProjectStatus_writes_without_diff_check :
    syncProjectStatusWrites (some "完了") "page-1" = [("page-1", JsVal.str "完了")] ∧
    statusStrictNe (some "完了") (mapGitHubStatusToNotion "完了") = false :=
  ⟨by decide, by decide⟩

/-- C7 (amended): when no external status is found neither path writes; the
forward path (sync-processor.ts syncProjectStatus) writes whenever a status
is found, without consulting the destination's current status; only the
reverse path gates its write on the current status differing from the
translated value, and every write it emits carries the translated value for
the matched page. -/
theorem statusSync_write_gating (pageId : String) :
    syncProjectStatusWrites none pageId = [] ∧
    (∀ gs, syncProjectStatusWrites (some gs) pageId =
      [(pageId, mapGitHubStatusToNotion gs)]) ∧
    (∀ it : ReverseItem, it.githubStatus = none → (reverseSyncStep false it).2 = []) ∧
    (∀ it : ReverseItem, ∀ w ∈ (reverseSyncStep false it).2,
      it.matched = true ∧ ∃ gs, it.githubStatus = some gs ∧
        statusStrictNe it.currentStatus (mapGitHubStatusToNotion gs) = true ∧
        w = (it.pageId, mapGitHubStatusToNotion gs)) := by
  refine ⟨rfl, fun gs => rfl, ?_, ?_⟩
  · intro it hg
    cases hm : it.matched with
    | false => simp [reverseSyncStep, hm]
    | true => simp [reverseSyncStep, hm, hg]
  · intro it w hw
    cases hm : it.matched with
    | false => simp [reverseSyncStep, hm] at hw
    | true =>
      cases hg : it.githubStatus with
      | none => simp [reverseSyncStep, hm, hg] at hw
      | some gs =>
        by_cases hne : statusStrictNe it.currentStatus (mapGitHubStatusToNotion gs) = true
        · simp [reverseSyncStep, hm, hg, hne] at hw
          exact ⟨rfl, gs, rfl, hne, hw⟩
        · simp [reverseSyncStep, hm, hg, hne] at hw

/-- C7 (witness): the gating applied to a reverse-path write for a matched
item whose current status differs from the translated value. -/
theorem statusSync_write_gating_witness :
    (⟨"pg", some "Backlog", true, some "着手中"⟩ : ReverseItem).matched = true ∧
    ∃ gs, (⟨"pg", some "Backlog", true, some "着手中"⟩ : ReverseItem).githubStatus = some gs ∧
      statusStrictNe (some "Backlog") (mapGitHubStatusToNotion gs) = true ∧
      (("pg", JsVal.str "着手中") : String × JsVal) = ("pg", mapGitHubStatusToNotion gs) :=
  (statusSync_write_gating "pg").2.2.2 ⟨"pg", some "Backlog", true, some "着手中"⟩
    ("pg", JsVal.str "着手中") (by decide)

/-- C8: a dry run of the reverse sync emits no status write at all (the
guard sits at the single write call site), leaves any destination-state
snapshot untouched, yet computes the very same per-item decisions and
summary counters as a live run; in particular a matched item whose
translated status differs from the destination's current status is counted
as updated in the dry run while the live run would write exactly that
translated status. -/
theorem reverseSync_dry_run_frame (items : List ReverseItem) (db : String → JsVal) :
    (reverseSyncRun true items).2 = [] ∧
    (reverseSyncRun true items).1 = (reverseSyncRun false items).1 ∧
    applyStatusWrites (reverseSyncRun true items).2 db = db ∧
    (∀ it : ReverseItem, ∀ gs, it.matched = true → it.githubStatus = some gs →
      statusStrictNe it.currentStatus (mapGitHubStatusToNotion gs) = true →
      (reverseSyncRun true [it]).1.updatedCount = 1 ∧
      (reverseSyncRun false [it]).2 = [(it.pageId, mapGitHubStatusToNotion gs)]) := by
  refine ⟨reverseSyncRun_dry_writes items, ?_, ?_, ?_⟩
  · induction items with
    | nil => rfl
    | cons it rest ih => simp [reverseSyncRun, reverseSyncStep_summary_dry_eq, ih]
  · rw [reverseSyncRun_dry_writes]
    rfl
  · intro it gs hm hg hne
    constructor
    · simp [reverseSyncRun, reverseSyncStep, hm, hg, hne, addSummary]
    · simp [reverseSyncRun, reverseSyncStep, hm, hg, hne]

/-- C8 (witness): the frame property applied to a concrete matched item with
differing statuses. -/
theorem reverseSync_dry_run_frame_witness :
    (reverseSyncRun true [⟨"pg", some "Backlog", true, some "着手中"⟩]).1.updatedCount = 1 ∧
    (reverseSyncRun false [⟨"pg", some "Backlog", true, some "着手中"⟩]).2 =
      [("pg", mapGitHubStatusToNotion "着手中")] :=
  (reverseSync_dry_run_frame [] (fun _ => JsVal.jsUndefined)).2.2.2
    ⟨"pg", some "Backlog", true, some "着手中"⟩ "着手中" rfl rfl (by decide)

/-- C9: when the destination title carries a PBI key, any candidate with the
same extracted key digits makes the matcher return the first such candidate
tagged pbi-id — its remaining text is never consulted — and every issue the
key rule returns carries exactly that key. -/
theorem matchOnePage_structured_key (notionTitle : String) (issues : List GitHubIssue)
    (key : String) (hkey : extractPbiId notionTitle = some key) :
    (∀ i, issues.find? (fun issue => extractPbiId issue.title == some key) = some i →
      matchOnePage notionTitle issues = (MatchKind.pbiId, some i) ∧
      extractPbiId i.title = some key) ∧
    ((∃ i ∈ issues, extractPbiId i.title = some key) →
      (matchOnePage notionTitle issues).1 = MatchKind.pbiId ∧
      ∃ j, (matchOnePage notionTitle issues).2 = some j ∧
        extractPbiId j.title = some key) := by
  constructor
  · intro i hf
    refine ⟨by simp [matchOnePage, hkey, hf], ?_⟩
    have := List.find?_some hf
    simpa using this
  · rintro ⟨i, hi, hik⟩
    cases hf : issues.find? (fun issue => extractPbiId issue.title == some key) with
    | none =>
      exfalso
      have := List.find?_eq_none.mp hf i hi
      simp [hik] at this
    | some j =>
      have hjk : extractPbiId j.title = some key := by
        have := List.find?_some hf
        simpa using this
      exact ⟨by simp [matchOnePage, hkey, hf], j, by simp [matchOnePage, hkey, hf], hjk⟩

/-- C9 (witness): the spec's own fixture — "PBI-42: Foo" against a
wrong-key/same-text candidate and a same-key/different-text candidate —
returns the same-key candidate tagged pbi-id. -/
theorem matchOnePage_structured_key_witness :
    matchOnePage "PBI-42: Foo" [⟨1, "PBI-43: Foo"⟩, ⟨2, "PBI-42: Bar"⟩] =
      (MatchKind.pbiId, some ⟨2, "PBI-42: Bar"⟩) ∧
    extractPbiId (GitHubIssue.title ⟨2, "PBI-42: Bar"⟩) = some "42" :=
  (matchOnePage_structured_key "PBI-42: Foo" [⟨1, "PBI-43: Foo"⟩, ⟨2, "PBI-42: Bar"⟩] "42"
    (by decide)).1 ⟨2, "PBI-42: Bar"⟩ (by decide)

/-- C10 (counterexample): a title whose PBI header is written in full-width
characters normalizes to a string that itself begins with an ASCII pbi
header, so normalizing a second time strips it again: normalization is not
idempotent, and its output can still carry a leading PBI-<digits>: prefix. -/
theorem normalizeTitle_fullwidth_header_not_idempotent :
    normalizeTitle "ＰＢＩ－２：foo" = "pbi-2:foo" ∧
    normalizeTitle (normalizeTitle "ＰＢＩ－２：foo") = "foo" ∧
    ("foo" : String) ≠ "pbi-2:foo" :=
  ⟨by decide, by decide, by decide⟩

/-- C10 (amended): the normalizer's output never contains whitespace and is
already lower-cased (every character is fixed by the case fold); when the
output does not itself begin with an ASCII PBI-<digits>: header — the only
situation the counterexample exploits — normalization is idempotent; and a
leading ASCII PBI header is removed, in that the digits it carries are
irrelevant to the result. -/
theorem normalizeTitle_invariants (s : String) :
    (∀ c ∈ (normalizeTitle s).data, isJsSpace c = false) ∧
    (∀ c ∈ (normalizeTitle s).data, jsToLower c = c) ∧
    (pbiSplit (normalizeTitle s).data = none →
      normalizeTitle (normalizeTitle s) = normalizeTitle s) ∧
    (∀ d₁ d₂ rest, d₁ ≠ [] → d₂ ≠ [] →
      (∀ c ∈ d₁, c.isDigit = true) → (∀ c ∈ d₂, c.isDigit = true) →
      normalizeCore ('P' :: 'B' :: 'I' :: '-' :: (d₁ ++ ':' :: rest)) =
        normalizeCore ('P' :: 'B' :: 'I' :: '-' :: (d₂ ++ ':' :: rest))) := by
  refine ⟨?_, ?_, ?_, ?_⟩
  · intro c hc
    exact (normalizeCore_chars s.data c hc).1
  · intro c hc
    exact (normalizeCore_chars s.data c hc).2.2.2
  · intro h
    exact congrArg String.mk (normalizeCore_idem_of_no_header h)
  · intro d₁ d₂ rest h1 h2 ha1 ha2
    rw [normalizeCore_eq, normalizeCore_eq, stripPbiHeader_header d₁ rest h1 ha1,
      stripPbiHeader_header d₂ rest h2 ha2]

/-- C10 (witness): idempotence discharged on a plain title, and
digit-irrelevance discharged on two concrete headers. -/
theorem normalizeTitle_invariants_witness :
    normalizeTitle (normalizeTitle "Hello World") = normalizeTitle "Hello World" ∧
    normalizeCore ('P' :: 'B' :: 'I' :: '-' :: (['4', '2'] ++ ':' :: " Foo".data)) =
      normalizeCore ('P' :: 'B' :: 'I' :: '-' :: (['7'] ++ ':' :: " Foo".data)) :=
  ⟨(normalizeTitle_invariants "Hello World").2.2.1 (by decide),
   (normalizeTitle_invariants "x").2.2.2 ['4', '2'] ['7'] " Foo".data
     (by decide) (by decide) (by decide) (by decide)⟩

end Soborlo
